import Mathlib

/-!
Shallow embedding of the adaptive feed-polling service
(packages/fetcher/scheduler.ts, processor.ts, parser.ts, packages/api/index.ts)
and proofs of the spec's testable properties.

Conventions of the embedding:
* JS `number` values (timestamps in milliseconds, rates in items/hour) are
  modelled as rationals `ℚ`; all arithmetic is exact, mirroring the real-number
  reading of the spec.
* JS `Date` values are their `getTime()` millisecond value; invalid dates and
  `null`/`undefined` are `none : Option ℚ`.
* The ambient wall clock (`new Date()` inside `computeNextFetch`) is threaded
  explicitly as a `now : ℚ` argument, since a shallow embedding must make the
  hidden state explicit.
-/

/-! ### Rate estimator — scheduler.ts -/

/-- `LEAD_FACTOR = 0.6` (scheduler.ts). -/
def LEAD_FACTOR : ℚ := 6/10

/-- `ALPHA = 0.3` (scheduler.ts). -/
def ALPHA : ℚ := 3/10

/-- `MIN_INTERVAL_HOURS = 0.25` (scheduler.ts). -/
def MIN_INTERVAL_HOURS : ℚ := 25/100

/-- `MAX_INTERVAL_HOURS = 24` (scheduler.ts). -/
def MAX_INTERVAL_HOURS : ℚ := 24

/-- `DEFAULT_INTERVAL_HOURS = 1` (scheduler.ts). -/
def DEFAULT_INTERVAL_HOURS : ℚ := 1

/-- `SAMPLE_SIZE = 20` (scheduler.ts). -/
def SAMPLE_SIZE : ℕ := 20

/-- `clamp(value, min, max) = Math.max(min, Math.min(max, value))` (scheduler.ts). -/
def clamp (value lo hi : ℚ) : ℚ := max lo (min hi value)

/-- `addHours(date, hours) = new Date(date.getTime() + hours * 3_600_000)` (scheduler.ts). -/
def addHours (date hours : ℚ) : ℚ := date + hours * 3600000

/-- The `validDates` pipeline of `computeNextFetch`: keep valid dates
(`filter(d => d instanceof Date && !isNaN(d.getTime()))`, i.e. drop `none`)
and sort ascending (`sort((a, b) => a.getTime() - b.getTime())`). -/
def validSorted (publishedTimestamps : List (Option ℚ)) : List ℚ :=
  List.insertionSort (· ≤ ·) (publishedTimestamps.filterMap id)

/-- `validDates.slice(-SAMPLE_SIZE)`: the most recent `SAMPLE_SIZE` entries. -/
def sampleOf (l : List ℚ) : List ℚ := l.drop (l.length - SAMPLE_SIZE)

/-- The consecutive-gap loop of `computeNextFetch`:
`gapHours_i = (sample[i].getTime() - sample[i-1].getTime()) / 3_600_000`. -/
def gapsOf : List ℚ → List ℚ
  | a :: b :: rest => ((b - a) / 3600000) :: gapsOf (b :: rest)
  | _ => []

/-- The estimator keeps only the strictly positive gaps (`if (gapHours > 0) gaps.push`). -/
def positiveGaps (l : List ℚ) : List ℚ := (gapsOf l).filter (fun g => 0 < g)

/-- The `gaps` array of `computeNextFetch` as a function of the raw input. -/
def pipeGaps (publishedTimestamps : List (Option ℚ)) : List ℚ :=
  positiveGaps (sampleOf (validSorted publishedTimestamps))

/-- `sumGaps = gaps.reduce((a, b) => a + b, 0)` (scheduler.ts). -/
def sumGapsOf (publishedTimestamps : List (Option ℚ)) : ℚ :=
  (pipeGaps publishedTimestamps).foldl (· + ·) 0

/-- `observedRate = gaps.length / sumGaps` (scheduler.ts). -/
def observedRateOf (publishedTimestamps : List (Option ℚ)) : ℚ :=
  ((pipeGaps publishedTimestamps).length : ℚ) / sumGapsOf publishedTimestamps

/-- `smoothedRate`: exponential smoothing against the prior rate when present
(`ALPHA * observedRate + (1 - ALPHA) * currentRatePerHour`), else the observed rate. -/
def smoothedRateOf (publishedTimestamps : List (Option ℚ)) (currentRatePerHour : Option ℚ) : ℚ :=
  match currentRatePerHour with
  | some r => ALPHA * observedRateOf publishedTimestamps + (1 - ALPHA) * r
  | none => observedRateOf publishedTimestamps

/-- `pollIntervalHours = clamp(expectedGapHours * LEAD_FACTOR, MIN, MAX)` with
`expectedGapHours = 1 / smoothedRate` (scheduler.ts). -/
def pollIntervalHoursOf (publishedTimestamps : List (Option ℚ))
    (currentRatePerHour : Option ℚ) : ℚ :=
  clamp ((1 / smoothedRateOf publishedTimestamps currentRatePerHour) * LEAD_FACTOR)
    MIN_INTERVAL_HOURS MAX_INTERVAL_HOURS

/-- Return type of `computeNextFetch`: `{ nextFetchAt: Date; newRatePerHour: number | null }`. -/
structure FetchResult where
  nextFetchAt : ℚ
  newRatePerHour : Option ℚ
deriving DecidableEq, Repr

/-- `computeNextFetch(publishedTimestamps, currentRatePerHour)` (scheduler.ts), with the
internal `const now = new Date()` made an explicit argument. Branches mirror the source:
fewer than 2 valid dates, no positive gaps, and the main Poisson-estimate path. -/
def computeNextFetch (now : ℚ) (publishedTimestamps : List (Option ℚ))
    (currentRatePerHour : Option ℚ) : FetchResult :=
  if (validSorted publishedTimestamps).length < 2 then
    { nextFetchAt := addHours now DEFAULT_INTERVAL_HOURS
      newRatePerHour := currentRatePerHour }
  else if (pipeGaps publishedTimestamps).length = 0 then
    { nextFetchAt := addHours now DEFAULT_INTERVAL_HOURS
      newRatePerHour := currentRatePerHour }
  else
    { nextFetchAt := addHours now (pollIntervalHoursOf publishedTimestamps currentRatePerHour)
      newRatePerHour := some (smoothedRateOf publishedTimestamps currentRatePerHour) }

/-- The poll interval, in hours, implied by a `computeNextFetch` result:
`(nextFetchAt - now) / 3_600_000`. -/
def intervalHoursOf (now : ℚ) (publishedTimestamps : List (Option ℚ))
    (currentRatePerHour : Option ℚ) : ℚ :=
  ((computeNextFetch now publishedTimestamps currentRatePerHour).nextFetchAt - now) / 3600000

theorem addHours_sub_div (now h : ℚ) : (addHours now h - now) / 3600000 = h := by
  unfold addHours
  field_simp

theorem clamp_bounds (v lo hi : ℚ) (h : lo ≤ hi) :
    lo ≤ clamp v lo hi ∧ clamp v lo hi ≤ hi := by
  constructor
  · exact le_max_left _ _
  · exact max_le h (min_le_left _ _)

/-- **C1.** Rate-estimator clamping: for every input list of publish timestamps and
every prior rate, the poll interval returned by `computeNextFetch`
(`nextFetchAt` minus `now`, in hours) lies within
`[MIN_INTERVAL_HOURS, MAX_INTERVAL_HOURS] = [0.25, 24]`, including the
insufficient-data fallback branches (whose interval is `DEFAULT_INTERVAL_HOURS = 1`). -/
theorem computeNextFetch_interval_clamped (now : ℚ) (publishedTimestamps : List (Option ℚ))
    (currentRatePerHour : Option ℚ) :
    MIN_INTERVAL_HOURS ≤ intervalHoursOf now publishedTimestamps currentRatePerHour ∧
      intervalHoursOf now publishedTimestamps currentRatePerHour ≤ MAX_INTERVAL_HOURS := by
  unfold intervalHoursOf computeNextFetch
  split
  · simp only [addHours_sub_div]
    norm_num [MIN_INTERVAL_HOURS, MAX_INTERVAL_HOURS, DEFAULT_INTERVAL_HOURS]
  · split
    · simp only [addHours_sub_div]
      norm_num [MIN_INTERVAL_HOURS, MAX_INTERVAL_HOURS, DEFAULT_INTERVAL_HOURS]
    · simp only [addHours_sub_div]
      exact clamp_bounds _ _ _ (by norm_num [MIN_INTERVAL_HOURS, MAX_INTERVAL_HOURS])

theorem gapsOf_drop : ∀ (k : ℕ) (l : List ℚ), gapsOf (l.drop k) = (gapsOf l).drop k := by
  intro k
  induction k with
  | zero => intro l; simp
  | succ k ih =>
    intro l
    match l with
    | [] => simp [gapsOf]
    | [a] => simp [gapsOf]
    | a :: b :: rest =>
      show gapsOf ((b :: rest).drop k) = (gapsOf (b :: rest)).drop k
      exact ih (b :: rest)

theorem positiveGaps_drop_eq_nil (k : ℕ) (l : List ℚ) (h : positiveGaps l = []) :
    positiveGaps (l.drop k) = [] := by
  unfold positiveGaps at *
  rw [gapsOf_drop]
  rw [List.filter_eq_nil_iff] at h ⊢
  intro a ha
  exact h a (List.drop_subset _ _ ha)

/-- **C2.** Rate-estimator insufficient data: for every input with fewer than 2 valid
timestamps, or whose consecutive sorted valid timestamps yield no strictly positive
gap, `computeNextFetch` returns `nextFetchAt = now + DEFAULT_INTERVAL_HOURS` (1 hour)
and a new rate equal to the prior rate unchanged (`none` when the prior was absent). -/
theorem computeNextFetch_insufficient_data (now : ℚ) (publishedTimestamps : List (Option ℚ))
    (currentRatePerHour : Option ℚ)
    (h : (validSorted publishedTimestamps).length < 2 ∨
      positiveGaps (validSorted publishedTimestamps) = []) :
    computeNextFetch now publishedTimestamps currentRatePerHour =
      { nextFetchAt := addHours now DEFAULT_INTERVAL_HOURS
        newRatePerHour := currentRatePerHour } := by
  rcases h with h | h
  · unfold computeNextFetch
    rw [if_pos h]
  · unfold computeNextFetch
    split
    · rfl
    · rw [if_pos]
      unfold pipeGaps sampleOf
      rw [positiveGaps_drop_eq_nil _ _ h]
      rfl

/-- Witness for C2 at a concrete input: two equal timestamps give no positive gap,
so the fallback fires and the prior rate `some 2` passes through unchanged. -/
theorem computeNextFetch_insufficient_data_witness :
    computeNextFetch 5 [some 0, some 0] (some 2) =
      { nextFetchAt := addHours 5 DEFAULT_INTERVAL_HOURS, newRatePerHour := some 2 } :=
  computeNextFetch_insufficient_data 5 [some 0, some 0] (some 2)
    (Or.inr (by norm_num [positiveGaps, gapsOf, validSorted, List.insertionSort,
      List.orderedInsert]))

/-- The `publishRatePerHour` invariant of the data model: a rate is `none` or
strictly positive (finiteness is automatic in the exact-arithmetic model). -/
def rateOk : Option ℚ → Prop
  | none => True
  | some x => 0 < x

instance (r : Option ℚ) : Decidable (rateOk r) :=
  match r with
  | none => isTrue True.intro
  | some x => inferInstanceAs (Decidable (0 < x))

theorem foldl_add_pos : ∀ (l : List ℚ) (init : ℚ), 0 ≤ init → (∀ x ∈ l, 0 < x) →
    l ≠ [] → 0 < l.foldl (· + ·) init := by
  intro l
  induction l with
  | nil => intro _ _ _ h; exact absurd rfl h
  | cons a t ih =>
    intro init hinit hpos _
    have ha : 0 < a := hpos a (List.mem_cons_self a t)
    match t with
    | [] =>
      show 0 < init + a
      linarith
    | b :: t2 =>
      refine ih (init + a) (by linarith) (fun x hx => hpos x (List.mem_cons_of_mem a hx))
        (List.cons_ne_nil _ _)

theorem mem_pipeGaps_pos (publishedTimestamps : List (Option ℚ)) (g : ℚ)
    (h : g ∈ pipeGaps publishedTimestamps) : 0 < g := by
  unfold pipeGaps positiveGaps at h
  have := List.mem_filter.mp h
  exact of_decide_eq_true this.2

theorem sumGapsOf_pos (publishedTimestamps : List (Option ℚ))
    (h : pipeGaps publishedTimestamps ≠ []) : 0 < sumGapsOf publishedTimestamps :=
  foldl_add_pos _ 0 le_rfl (mem_pipeGaps_pos publishedTimestamps) h

theorem observedRateOf_pos (publishedTimestamps : List (Option ℚ))
    (h : pipeGaps publishedTimestamps ≠ []) : 0 < observedRateOf publishedTimestamps := by
  unfold observedRateOf
  apply div_pos
  · have : 0 < (pipeGaps publishedTimestamps).length := List.length_pos.mpr h
    exact_mod_cast this
  · exact sumGapsOf_pos publishedTimestamps h

theorem smoothedRateOf_pos (publishedTimestamps : List (Option ℚ))
    (currentRatePerHour : Option ℚ) (h : pipeGaps publishedTimestamps ≠ [])
    (hprior : rateOk currentRatePerHour) : 0 < smoothedRateOf publishedTimestamps currentRatePerHour := by
  unfold smoothedRateOf
  match currentRatePerHour with
  | none => exact observedRateOf_pos publishedTimestamps h
  | some r =>
    show 0 < ALPHA * observedRateOf publishedTimestamps + (1 - ALPHA) * r
    have h1 : 0 < observedRateOf publishedTimestamps := observedRateOf_pos publishedTimestamps h
    have h2 : 0 < r := hprior
    have := mul_pos (show (0:ℚ) < ALPHA by norm_num [ALPHA]) h1
    have := mul_pos (show (0:ℚ) < 1 - ALPHA by norm_num [ALPHA]) h2
    linarith

/-- **C9.** `computeNextFetch` preserves the rate invariant: for a prior rate that is
`none` or strictly positive, the returned `newRatePerHour` is `none` or strictly
positive (the observed rate is a positive count over a positive gap sum, and
smoothing two positive rates stays positive; finiteness is automatic over `ℚ`). -/
theorem computeNextFetch_rate_invariant (now : ℚ) (publishedTimestamps : List (Option ℚ))
    (currentRatePerHour : Option ℚ) (h : rateOk currentRatePerHour) :
    rateOk (computeNextFetch now publishedTimestamps currentRatePerHour).newRatePerHour := by
  unfold computeNextFetch
  split
  · exact h
  split
  · exact h
  · rename_i hgaps
    have hne : pipeGaps publishedTimestamps ≠ [] := by
      intro hnil
      exact hgaps (by rw [hnil]; rfl)
    show 0 < smoothedRateOf publishedTimestamps currentRatePerHour
    exact smoothedRateOf_pos publishedTimestamps currentRatePerHour hne h

/-- Witness for C9: prior rate `1` and two timestamps one hour apart give a positive
smoothed rate. -/
theorem computeNextFetch_rate_invariant_witness :
    rateOk (some (1 : ℚ)) ∧
      rateOk (computeNextFetch 0 [some 0, some 3600000] (some 1)).newRatePerHour :=
  ⟨by norm_num [rateOk],
    computeNextFetch_rate_invariant 0 [some 0, some 3600000] (some 1) (by norm_num [rateOk])⟩

theorem clamp_eq_of_strict (v lo hi : ℚ) (h1 : lo < clamp v lo hi) (h2 : clamp v lo hi < hi) :
    clamp v lo hi = v := by
  unfold clamp at *
  rcases le_or_lt v lo with hv | hv
  · exfalso
    have hmin : min hi v ≤ lo := le_trans (min_le_right _ _) hv
    have : max lo (min hi v) = lo := max_eq_left hmin
    rw [this] at h1
    exact lt_irrefl lo h1
  rcases le_or_lt hi v with hv2 | hv2
  · exfalso
    have hmin : min hi v = hi := min_eq_left hv2
    rw [hmin] at h2
    exact absurd h2 (not_lt.mpr (le_max_right lo hi))
  · rw [min_eq_right hv2.le, max_eq_right hv.le]

theorem pipeGaps_ne_nil_length (publishedTimestamps : List (Option ℚ))
    (h : pipeGaps publishedTimestamps ≠ []) :
    ¬ (validSorted publishedTimestamps).length < 2 := by
  have hgaps : gapsOf (sampleOf (validSorted publishedTimestamps)) ≠ [] := by
    intro hnil
    apply h
    unfold pipeGaps positiveGaps
    rw [hnil]
    rfl
  have h2 : 2 ≤ (sampleOf (validSorted publishedTimestamps)).length := by
    match hl : sampleOf (validSorted publishedTimestamps) with
    | [] => rw [hl] at hgaps; exact absurd rfl hgaps
    | [a] => rw [hl] at hgaps; exact absurd rfl hgaps
    | a :: b :: rest => simp
  have hle : (sampleOf (validSorted publishedTimestamps)).length ≤
      (validSorted publishedTimestamps).length := by
    unfold sampleOf
    rw [List.length_drop]
    omega
  omega

theorem computeNextFetch_main (now : ℚ) (publishedTimestamps : List (Option ℚ))
    (currentRatePerHour : Option ℚ) (h : pipeGaps publishedTimestamps ≠ []) :
    computeNextFetch now publishedTimestamps currentRatePerHour =
      { nextFetchAt := addHours now (pollIntervalHoursOf publishedTimestamps currentRatePerHour)
        newRatePerHour := some (smoothedRateOf publishedTimestamps currentRatePerHour) } := by
  unfold computeNextFetch
  rw [if_neg (pipeGaps_ne_nil_length publishedTimestamps h), if_neg]
  simpa using h

theorem intervalHoursOf_main (now : ℚ) (publishedTimestamps : List (Option ℚ))
    (currentRatePerHour : Option ℚ) (h : pipeGaps publishedTimestamps ≠ []) :
    intervalHoursOf now publishedTimestamps currentRatePerHour =
      pollIntervalHoursOf publishedTimestamps currentRatePerHour := by
  unfold intervalHoursOf
  rw [computeNextFetch_main now publishedTimestamps currentRatePerHour h]
  exact addHours_sub_div _ _

theorem smoothedRateOf_strict_mono (ts1 ts2 : List (Option ℚ)) (prior : Option ℚ)
    (h : observedRateOf ts2 < observedRateOf ts1) :
    smoothedRateOf ts2 prior < smoothedRateOf ts1 prior := by
  unfold smoothedRateOf
  match prior with
  | none => exact h
  | some r =>
    have := mul_lt_mul_of_pos_left h (show (0:ℚ) < ALPHA by norm_num [ALPHA])
    show ALPHA * observedRateOf ts2 + (1 - ALPHA) * r <
      ALPHA * observedRateOf ts1 + (1 - ALPHA) * r
    linarith

theorem pollInterval_strict_inside (publishedTimestamps : List (Option ℚ))
    (currentRatePerHour : Option ℚ)
    (h1 : MIN_INTERVAL_HOURS < pollIntervalHoursOf publishedTimestamps currentRatePerHour)
    (h2 : pollIntervalHoursOf publishedTimestamps currentRatePerHour < MAX_INTERVAL_HOURS) :
    0 < smoothedRateOf publishedTimestamps currentRatePerHour ∧
      pollIntervalHoursOf publishedTimestamps currentRatePerHour =
        (1 / smoothedRateOf publishedTimestamps currentRatePerHour) * LEAD_FACTOR := by
  have heq : pollIntervalHoursOf publishedTimestamps currentRatePerHour =
      (1 / smoothedRateOf publishedTimestamps currentRatePerHour) * LEAD_FACTOR :=
    clamp_eq_of_strict _ _ _ h1 h2
  refine ⟨?_, heq⟩
  rw [heq] at h1
  by_contra hle
  push_neg at hle
  have hdiv : 1 / smoothedRateOf publishedTimestamps currentRatePerHour ≤ 0 :=
    one_div_nonpos.mpr hle
  have hmul : (1 / smoothedRateOf publishedTimestamps currentRatePerHour) * LEAD_FACTOR ≤ 0 :=
    mul_nonpos_iff.mpr (Or.inr ⟨hdiv, by norm_num [LEAD_FACTOR]⟩)
  have : (0:ℚ) < MIN_INTERVAL_HOURS := by norm_num [MIN_INTERVAL_HOURS]
  linarith

/-- **C3.** Rate-estimator monotonicity: for two valid timestamp sequences (each yielding
at least one positive gap) evaluated against the same prior rate, if the first yields a
strictly greater observed rate than the second, then the first yields a strictly smaller
poll interval, provided both intervals fall strictly inside the clamp bounds. -/
theorem computeNextFetch_rate_monotone (now : ℚ) (ts1 ts2 : List (Option ℚ))
    (prior : Option ℚ)
    (h1 : pipeGaps ts1 ≠ []) (h2 : pipeGaps ts2 ≠ [])
    (hobs : observedRateOf ts2 < observedRateOf ts1)
    (hlo1 : MIN_INTERVAL_HOURS < intervalHoursOf now ts1 prior)
    (hhi1 : intervalHoursOf now ts1 prior < MAX_INTERVAL_HOURS)
    (hlo2 : MIN_INTERVAL_HOURS < intervalHoursOf now ts2 prior)
    (hhi2 : intervalHoursOf now ts2 prior < MAX_INTERVAL_HOURS) :
    intervalHoursOf now ts1 prior < intervalHoursOf now ts2 prior := by
  rw [intervalHoursOf_main now ts1 prior h1] at hlo1 hhi1 ⊢
  rw [intervalHoursOf_main now ts2 prior h2] at hlo2 hhi2 ⊢
  obtain ⟨hpos1, heq1⟩ := pollInterval_strict_inside ts1 prior hlo1 hhi1
  obtain ⟨hpos2, heq2⟩ := pollInterval_strict_inside ts2 prior hlo2 hhi2
  rw [heq1, heq2]
  have hlt : smoothedRateOf ts2 prior < smoothedRateOf ts1 prior :=
    smoothedRateOf_strict_mono ts1 ts2 prior hobs
  have hdiv := one_div_lt_one_div_of_lt hpos2 hlt
  exact mul_lt_mul_of_pos_right hdiv (show (0:ℚ) < LEAD_FACTOR by norm_num [LEAD_FACTOR])

/-- Witness for C3: timestamps half an hour apart (observed rate 2/hr, interval 0.3h)
against timestamps one hour apart (observed rate 1/hr, interval 0.6h), no prior;
both intervals strictly inside (0.25, 24). -/
theorem computeNextFetch_rate_monotone_witness :
    intervalHoursOf 0 [some 0, some 1800000] none < intervalHoursOf 0 [some 0, some 3600000] none :=
  computeNextFetch_rate_monotone 0 [some 0, some 1800000] [some 0, some 3600000] none
    (by norm_num [pipeGaps, positiveGaps, gapsOf, sampleOf, validSorted, SAMPLE_SIZE,
      List.insertionSort, List.orderedInsert])
    (by norm_num [pipeGaps, positiveGaps, gapsOf, sampleOf, validSorted, SAMPLE_SIZE,
      List.insertionSort, List.orderedInsert])
    (by norm_num [observedRateOf, sumGapsOf, pipeGaps, positiveGaps, gapsOf, sampleOf,
      validSorted, SAMPLE_SIZE, List.insertionSort, List.orderedInsert])
    (by norm_num [intervalHoursOf, computeNextFetch, pollIntervalHoursOf, smoothedRateOf,
      observedRateOf, sumGapsOf, pipeGaps, positiveGaps, gapsOf, sampleOf, validSorted,
      SAMPLE_SIZE, clamp, addHours, LEAD_FACTOR, MIN_INTERVAL_HOURS, MAX_INTERVAL_HOURS,
      List.insertionSort, List.orderedInsert])
    (by norm_num [intervalHoursOf, computeNextFetch, pollIntervalHoursOf, smoothedRateOf,
      observedRateOf, sumGapsOf, pipeGaps, positiveGaps, gapsOf, sampleOf, validSorted,
      SAMPLE_SIZE, clamp, addHours, LEAD_FACTOR, MIN_INTERVAL_HOURS, MAX_INTERVAL_HOURS,
      List.insertionSort, List.orderedInsert])
    (by norm_num [intervalHoursOf, computeNextFetch, pollIntervalHoursOf, smoothedRateOf,
      observedRateOf, sumGapsOf, pipeGaps, positiveGaps, gapsOf, sampleOf, validSorted,
      SAMPLE_SIZE, clamp, addHours, LEAD_FACTOR, MIN_INTERVAL_HOURS, MAX_INTERVAL_HOURS,
      List.insertionSort, List.orderedInsert])
    (by norm_num [intervalHoursOf, computeNextFetch, pollIntervalHoursOf, smoothedRateOf,
      observedRateOf, sumGapsOf, pipeGaps, positiveGaps, gapsOf, sampleOf, validSorted,
      SAMPLE_SIZE, clamp, addHours, LEAD_FACTOR, MIN_INTERVAL_HOURS, MAX_INTERVAL_HOURS,
      List.insertionSort, List.orderedInsert])

/-! ### Feed processor — processor.ts, over an explicit store state -/

/-- A parsed item (`Partial<ItemInsert>` produced by the parser): `url` is `""` when
the parser found no link (the processor skips those), other fields optional. -/
structure ParsedItem where
  url : String
  title : Option String
  description : Option String
  content : Option String
  author : Option String
  published : Option ℚ
  image : Option String
deriving DecidableEq, Repr

/-- Parsed feed metadata (`feedInfo` of `ParsedFeed`). -/
structure FeedInfo where
  name : Option String
  homeUrl : Option String
  image : Option String
deriving DecidableEq, Repr

/-- `ParsedFeed` (parser.ts): feed metadata, item list, and the post-redirect URL. -/
structure ParsedFeed where
  feedInfo : FeedInfo
  items : List ParsedItem
  finalUrl : String
deriving DecidableEq, Repr

/-- A row of the `feed` table (packages/db/schema.ts). -/
structure FeedRow where
  feedUrl : String
  homeUrl : Option String
  name : Option String
  link : Option String
  lastPublished : Option ℚ
  lastFetched : Option ℚ
  image : Option String
  nextFetchAt : Option ℚ
  publishRatePerHour : Option ℚ
deriving DecidableEq, Repr

/-- A row of the `item` table (packages/db/schema.ts). -/
structure ItemRow where
  url : String
  title : Option String
  description : Option String
  image : Option String
  content : Option String
  published : Option ℚ
  author : Option String
  feedUrl : String
deriving DecidableEq, Repr

/-- The persistent state the processor touches: the two tables, rows in
insertion order, keyed by `feedUrl` / `url` respectively. -/
structure Store where
  feeds : List FeedRow
  items : List ItemRow
deriving DecidableEq, Repr

/-- `processFeed`'s return value `{ inserted, finalUrl }`. -/
structure ProcessResult where
  inserted : ℕ
  finalUrl : String
deriving DecidableEq, Repr

/-- `nullIfEmpty(val) = val && val.trim() ? val : null` (processor.ts): empty or
whitespace-only strings become `none`. -/
def nullIfEmpty (val : Option String) : Option String :=
  match val with
  | none => none
  | some s => if s.trim = "" then none else some s

/-- `db.insert(feeds).values(row).onConflictDoUpdate(...)` (processor.ts): insert the
row, or on primary-key conflict update exactly the columns listed in `set`
(name, homeUrl, image, lastFetched, publishRatePerHour, nextFetchAt). -/
def upsertFeed (fs : List FeedRow) (row : FeedRow) : List FeedRow :=
  if fs.any (fun r => r.feedUrl = row.feedUrl) then
    fs.map (fun r =>
      if r.feedUrl = row.feedUrl then
        { r with
          name := row.name
          homeUrl := row.homeUrl
          image := row.image
          lastFetched := row.lastFetched
          publishRatePerHour := row.publishRatePerHour
          nextFetchAt := row.nextFetchAt }
      else r)
  else fs ++ [row]

/-- Does the item table contain a row with the given primary key? -/
def hasUrl (its : List ItemRow) (u : String) : Bool :=
  its.any (fun r => r.url = u)

/-- `db.insert(items).values(row).onConflictDoNothing()` plus the
`if (result.length) inserted++` counting (processor.ts): on key conflict the table and
counter are unchanged, otherwise the row is appended and the counter incremented. -/
def insertItemRow (acc : List ItemRow × ℕ) (row : ItemRow) : List ItemRow × ℕ :=
  if hasUrl acc.1 row.url then acc else (acc.1 ++ [row], acc.2 + 1)

/-- The item row built in the processor's loop body: image inlining
(`item.image ? await downloadImageAsBase64(item.image) ?? undefined : undefined`,
with the image fetcher abstracted as `fetchImage`), `nullIfEmpty` on the text fields,
`published` stored as parsed. -/
def mkItemRow (finalUrl : String) (fetchImage : String → Option String)
    (item : ParsedItem) : ItemRow :=
  { url := item.url
    title := nullIfEmpty item.title
    description := nullIfEmpty item.description
    image := match item.image with
      | some u => if u = "" then none else fetchImage u
      | none => none
    content := nullIfEmpty item.content
    published := item.published
    author := nullIfEmpty item.author
    feedUrl := finalUrl }

/-- The `for (const item of parsedItems)` loop of `processFeed`: skip items with an
empty URL (`if (!item.url) continue`), insert the rest with conflict-do-nothing,
counting insertions. -/
def processItems (finalUrl : String) (fetchImage : String → Option String)
    (acc : List ItemRow × ℕ) : List ParsedItem → List ItemRow × ℕ
  | [] => acc
  | item :: rest =>
    if item.url = "" then processItems finalUrl fetchImage acc rest
    else processItems finalUrl fetchImage
      (insertItemRow acc (mkItemRow finalUrl fetchImage item)) rest

/-- `processFeed(feedUrl, db)` (processor.ts) over an explicit store. The fetch-and-parse
step is represented by its result (`none` on fetch/parse failure, exactly the early
`if (!parsed) return null`); `now` is the wall clock at the call; `fetchImage` abstracts
the image fetcher (`none` = failure or no data URI). Steps mirror the source: read the
prior rate, run the estimator, upsert the feed row, then insert items counting new rows. -/
def processFeed (now : ℚ) (fetched : Option ParsedFeed)
    (fetchImage : String → Option String) (s : Store) : Option ProcessResult × Store :=
  match fetched with
  | none => (none, s)
  | some parsed =>
    let priorRate : Option ℚ :=
      ((s.feeds.find? (fun r => r.feedUrl = parsed.finalUrl)).map
        (fun r => r.publishRatePerHour)).join
    let est := computeNextFetch now (parsed.items.map (fun i => i.published)) priorRate
    let feeds1 := upsertFeed s.feeds
      { feedUrl := parsed.finalUrl
        name := nullIfEmpty parsed.feedInfo.name
        homeUrl := nullIfEmpty parsed.feedInfo.homeUrl
        link := none
        lastPublished := none
        image := nullIfEmpty parsed.feedInfo.image
        lastFetched := some now
        publishRatePerHour := est.newRatePerHour
        nextFetchAt := some est.nextFetchAt }
    let res := processItems parsed.finalUrl fetchImage (s.items, 0) parsed.items
    (some { inserted := res.2, finalUrl := parsed.finalUrl }, { feeds := feeds1, items := res.1 })

/-- **C5.** For every feed whose fetch or parse fails (the parser returns `none`),
`processFeed` returns `none` and performs no store mutation: the feed table (including
`nextFetchAt` and `publishRatePerHour`) and the item table are left exactly as before. -/
theorem processFeed_failure_no_mutation (now : ℚ) (fetchImage : String → Option String)
    (s : Store) :
    processFeed now none fetchImage s = (none, s) := rfl

theorem insertItemRow_hasUrl_mono (acc : List ItemRow × ℕ) (row : ItemRow) (u : String)
    (h : hasUrl acc.1 u = true) : hasUrl (insertItemRow acc row).1 u = true := by
  unfold insertItemRow
  split
  · exact h
  · unfold hasUrl at *
    simp only [List.any_append, h, Bool.true_or]

theorem insertItemRow_hasUrl_self (acc : List ItemRow × ℕ) (row : ItemRow) :
    hasUrl (insertItemRow acc row).1 row.url = true := by
  unfold insertItemRow
  split
  · assumption
  · unfold hasUrl
    simp

theorem processItems_hasUrl_mono (finalUrl : String) (fetchImage : String → Option String)
    (u : String) : ∀ (l : List ParsedItem) (acc : List ItemRow × ℕ),
    hasUrl acc.1 u = true → hasUrl (processItems finalUrl fetchImage acc l).1 u = true := by
  intro l
  induction l with
  | nil => intro acc h; exact h
  | cons item rest ih =>
    intro acc h
    unfold processItems
    split
    · exact ih acc h
    · exact ih _ (insertItemRow_hasUrl_mono acc _ u h)

theorem processItems_complete (finalUrl : String) (fetchImage : String → Option String) :
    ∀ (l : List ParsedItem) (acc : List ItemRow × ℕ), ∀ it ∈ l, it.url ≠ "" →
    hasUrl (processItems finalUrl fetchImage acc l).1 it.url = true := by
  intro l
  induction l with
  | nil => intro acc it hmem; exact absurd hmem (List.not_mem_nil it)
  | cons item rest ih =>
    intro acc it hmem hne
    rcases List.mem_cons.mp hmem with heq | hmem2
    · subst heq
      unfold processItems
      split
      · rename_i hurl; exact absurd hurl hne
      · exact processItems_hasUrl_mono finalUrl fetchImage it.url rest _
          (insertItemRow_hasUrl_self acc (mkItemRow finalUrl fetchImage it))
    · unfold processItems
      split
      · exact ih acc it hmem2 hne
      · exact ih _ it hmem2 hne

theorem processItems_noop (finalUrl : String) (fetchImage : String → Option String)
    (L : List ItemRow) (n : ℕ) : ∀ (l : List ParsedItem),
    (∀ it ∈ l, it.url ≠ "" → hasUrl L it.url = true) →
    processItems finalUrl fetchImage (L, n) l = (L, n) := by
  intro l
  induction l with
  | nil => intro _; rfl
  | cons item rest ih =>
    intro h
    unfold processItems
    split
    · exact ih (fun it hmem => h it (List.mem_cons_of_mem item hmem))
    · rename_i hurl
      have hhas : hasUrl L item.url = true := h item (List.mem_cons_self item rest) hurl
      have : insertItemRow (L, n) (mkItemRow finalUrl fetchImage item) = (L, n) := by
        unfold insertItemRow
        rw [if_pos]
        exact hhas
      rw [this]
      exact ih (fun it hmem => h it (List.mem_cons_of_mem item hmem))

/-- **C4.** Processor idempotence: processing the same parsed feed response twice
(at any two wall-clock instants) leaves the stored item set identical to the state
after the first run — item rows are inserted with on-conflict-do-nothing, so existing
rows are never modified — and the second invocation reports an inserted count of 0. -/
theorem processFeed_idempotent (now1 now2 : ℚ) (parsed : ParsedFeed)
    (fetchImage : String → Option String) (s : Store) :
    (processFeed now2 (some parsed) fetchImage
        (processFeed now1 (some parsed) fetchImage s).2).2.items =
      (processFeed now1 (some parsed) fetchImage s).2.items ∧
    (processFeed now2 (some parsed) fetchImage
        (processFeed now1 (some parsed) fetchImage s).2).1 =
      some { inserted := 0, finalUrl := parsed.finalUrl } := by
  have hset : ∀ it ∈ parsed.items, it.url ≠ "" →
      hasUrl (processItems parsed.finalUrl fetchImage (s.items, 0) parsed.items).1
        it.url = true :=
    processItems_complete parsed.finalUrl fetchImage parsed.items (s.items, 0)
  have hnoop := processItems_noop parsed.finalUrl fetchImage
    (processItems parsed.finalUrl fetchImage (s.items, 0) parsed.items).1 0
    parsed.items hset
  simp only [processFeed]
  rw [hnoop]
  exact ⟨rfl, rfl⟩

/-! ### Scheduler due-feed selection — scheduler.ts `getDueFeeds` -/

/-- Postgres comparison backing `ORDER BY next_fetch_at asc` (drizzle `asc(...)`):
by default Postgres sorts null values as if larger than any non-null value,
i.e. NULLS LAST under ASC. -/
def pgAscLe (a b : Option ℚ) : Bool :=
  match a, b with
  | none, none => true
  | none, some _ => false
  | some _, none => true
  | some x, some y => x ≤ y

/-- Row ordering used by the due-feed query: compare `nextFetchAt` with `pgAscLe`. -/
def dueLe (a b : FeedRow) : Prop := pgAscLe a.nextFetchAt b.nextFetchAt = true

instance : DecidableRel dueLe := fun a b =>
  inferInstanceAs (Decidable (pgAscLe a.nextFetchAt b.nextFetchAt = true))

/-- The `WHERE` clause of `getDueFeeds`:
`isNull(feeds.nextFetchAt) OR lte(feeds.nextFetchAt, now)`. -/
def isDue (now : ℚ) (r : FeedRow) : Bool :=
  match r.nextFetchAt with
  | none => true
  | some t => t ≤ now

/-- `getDueFeeds()` (scheduler.ts): select the feed rows satisfying the due predicate,
ordered by `next_fetch_at asc` under Postgres semantics. The source projects each row
to its `feedUrl`; the model keeps the rows, the projection being irrelevant to order.
`insertionSort` is stable, matching SQL's freedom on equal keys only up to
permutation-with-sortedness, which is what the theorems state. -/
def getDueFeeds (now : ℚ) (fs : List FeedRow) : List FeedRow :=
  List.insertionSort dueLe (fs.filter (isDue now))

instance : IsTotal FeedRow dueLe := by
  constructor
  intro a b
  unfold dueLe pgAscLe
  rcases a.nextFetchAt with _ | x <;> rcases b.nextFetchAt with _ | y
  · left; rfl
  · right; rfl
  · left; rfl
  · rcases le_total x y with h | h
    · left; exact decide_eq_true h
    · right; exact decide_eq_true h

instance : IsTrans FeedRow dueLe := by
  constructor
  intro a b c hab hbc
  unfold dueLe pgAscLe at *
  generalize a.nextFetchAt = oa at hab ⊢
  generalize b.nextFetchAt = ob at hab hbc
  generalize c.nextFetchAt = oc at hbc ⊢
  rcases oa with _ | x <;> rcases ob with _ | y <;> rcases oc with _ | z <;>
    first
      | rfl
      | exact absurd hab Bool.false_ne_true
      | exact absurd hbc Bool.false_ne_true
      | exact decide_eq_true (le_trans (of_decide_eq_true hab) (of_decide_eq_true hbc))

/-- A never-polled feed row (`nextFetchAt` null). -/
def cexNeverPolled : FeedRow :=
  { feedUrl := "https://never.example/feed"
    homeUrl := none
    name := none
    link := none
    lastPublished := none
    lastFetched := none
    image := none
    nextFetchAt := none
    publishRatePerHour := none }

/-- A due scheduled feed row (`nextFetchAt = 0`). -/
def cexScheduled : FeedRow :=
  { feedUrl := "https://sched.example/feed"
    homeUrl := none
    name := none
    link := none
    lastPublished := none
    lastFetched := none
    image := none
    nextFetchAt := some 0
    publishRatePerHour := none }

/-- **C6 counterexample.** At `now = 10`, with a never-polled feed (null `nextFetchAt`)
listed before a due scheduled feed, the selection returns the scheduled feed first:
`ORDER BY next_fetch_at ASC` puts nulls last in Postgres, so the claimed nulls-first
order (never-polled before scheduled) is false. -/
theorem getDueFeeds_nulls_first_false :
    (getDueFeeds 10 [cexNeverPolled, cexScheduled]).map (fun r => r.feedUrl) =
        ["https://sched.example/feed", "https://never.example/feed"] ∧
      (getDueFeeds 10 [cexNeverPolled, cexScheduled]).map (fun r => r.feedUrl) ≠
        ["https://never.example/feed", "https://sched.example/feed"] := by
  constructor
  · rfl
  · intro h
    simp [getDueFeeds, cexNeverPolled, cexScheduled, isDue, dueLe, pgAscLe,
      List.insertionSort, List.orderedInsert] at h

/-- **C6 (amended).** The due-feed selection returns exactly the due feeds
(`nextFetchAt` null or ≤ now) ordered by ascending `nextFetchAt` with null
`nextFetchAt` LAST (Postgres default for ASC), so never-polled feeds are dispatched
after all scheduled due feeds. -/
theorem getDueFeeds_due_sorted (now : ℚ) (fs : List FeedRow) :
    (getDueFeeds now fs).Perm (fs.filter (isDue now)) ∧
      List.Sorted dueLe (getDueFeeds now fs) :=
  ⟨List.perm_insertionSort dueLe _, List.sorted_insertionSort dueLe _⟩

/-! ### Feed-type detection — parser.ts `detectFeedType` -/

/-- Does `haystack` start with `needle`? (character-list prefix test). -/
def charsStartWith : List Char → List Char → Bool
  | _, [] => true
  | [], _ :: _ => false
  | h :: t, n :: nt => h = n && charsStartWith t nt

/-- Does `haystack` contain `needle` as a contiguous run? -/
def charsContain : List Char → List Char → Bool
  | [], needle => needle.isEmpty
  | h :: t, needle => charsStartWith (h :: t) needle || charsContain t needle

/-- JS `String.prototype.includes`: substring containment. -/
def strIncludes (s sub : String) : Bool := charsContain s.data sub.data

/-- The two feed formats recognised by the parser. -/
inductive FeedType
  | rss
  | atom
deriving DecidableEq, Repr

/-- The exact marker the source tests for:
`xml.includes('xmlns="http://www.w3.org/2005/Atom"')` — the namespace URI together
with the `xmlns=` attribute prefix and double quotes. -/
def atomMarker : String := "xmlns=\"http://www.w3.org/2005/Atom\""

/-- `detectFeedType(xml)` (parser.ts): Atom when the document contains `<feed` and the
double-quoted `xmlns` attribute for the Atom namespace; otherwise RSS. -/
def detectFeedType (xml : String) : FeedType :=
  if strIncludes xml "<feed" && strIncludes xml atomMarker then FeedType.atom
  else FeedType.rss

/-- An Atom-style document that contains `<feed` and the Atom namespace URI, but not
the exact `xmlns="..."` marker the code searches for. -/
def cexAtomDoc : String := "<feed><link href=\"http://www.w3.org/2005/Atom\"/></feed>"

/-- **C7 counterexample.** `cexAtomDoc` contains the substring `<feed` and the Atom
namespace URI `http://www.w3.org/2005/Atom`, yet `detectFeedType` classifies it as RSS:
the claimed iff (Atom ⇔ contains `<feed` and the namespace URI) is false, because the
code tests for the longer substring `xmlns="http://www.w3.org/2005/Atom"`. -/
theorem detectFeedType_uri_iff_false :
    strIncludes cexAtomDoc "<feed" = true ∧
      strIncludes cexAtomDoc "http://www.w3.org/2005/Atom" = true ∧
      detectFeedType cexAtomDoc = FeedType.rss := by
  refine ⟨rfl, rfl, rfl⟩

/-- **C7 (amended).** A document is classified Atom if and only if it contains the
substring `<feed` and the exact substring `xmlns="http://www.w3.org/2005/Atom"`
(the namespace URI as a double-quoted `xmlns` attribute); every other document is RSS. -/
theorem detectFeedType_atom_iff (xml : String) :
    detectFeedType xml = FeedType.atom ↔
      (strIncludes xml "<feed" = true ∧ strIncludes xml atomMarker = true) := by
  unfold detectFeedType
  split
  · rename_i h
    simp only [Bool.and_eq_true] at h
    exact iff_of_true rfl h
  · rename_i h
    constructor
    · intro hcontra
      exact FeedType.noConfusion hcontra
    · intro hboth
      exact absurd (by rw [hboth.1, hboth.2]; rfl : _ = true) h

/-! ### Determinism and the hidden wall clock — scheduler.ts `computeNextFetch` -/

/-- **C8.** The source `computeNextFetch(publishedTimestamps, currentRatePerHour)` takes
no `now` parameter: it reads the wall clock internally via `new Date()`. In the
embedding that hidden input is the explicit `now` argument, and the output genuinely
depends on it: two calls with identical user-supplied arguments (empty timestamp list,
no prior) made one hour apart return different `nextFetchAt` values. Given equal
`now`, equal output is definitional — but the code does not accept `now` as a
parameter, contradicting the spec's testability requirement. -/
theorem computeNextFetch_depends_on_hidden_now :
    computeNextFetch 0 [] none ≠ computeNextFetch 3600000 [] none := by
  intro h
  have := congrArg FetchResult.nextFetchAt h
  norm_num [computeNextFetch, validSorted, addHours, DEFAULT_INTERVAL_HOURS,
    List.insertionSort] at this

/-! ### Item search — packages/api/index.ts `searchItems` -/

/-- SQL `nullif(col, '')` used in the select list: an empty string becomes null. -/
def sqlNullifEmpty (x : Option String) : Option String :=
  match x with
  | some s => if s = "" then none else some s
  | none => none

/-- The nested `feed` object of a search result row, with the `nullif` transforms the
select list applies to `homeUrl`, `link` and `image`. -/
structure JoinedFeed where
  feedUrl : String
  homeUrl : Option String
  name : Option String
  link : Option String
  lastPublished : Option ℚ
  lastFetched : Option ℚ
  image : Option String
  nextFetchAt : Option ℚ
  publishRatePerHour : Option ℚ
deriving DecidableEq, Repr

/-- One row of the `searchItems` result: item columns (with `nullif` on `author`)
plus the left-joined feed (null when no feed row matches). -/
structure SearchRow where
  url : String
  title : Option String
  description : Option String
  image : Option String
  content : Option String
  published : Option ℚ
  author : Option String
  feed : Option JoinedFeed
deriving DecidableEq, Repr

/-- `leftJoin(feeds, eq(items.feedUrl, feeds.feedUrl))` for one item row: feeds are
keyed by `feedUrl`, so at most one row matches. -/
def joinRow (feedRows : List FeedRow) (it : ItemRow) : SearchRow :=
  { url := it.url
    title := it.title
    description := it.description
    image := it.image
    content := it.content
    published := it.published
    author := sqlNullifEmpty it.author
    feed := (feedRows.find? (fun f => f.feedUrl = it.feedUrl)).map (fun f =>
      { feedUrl := f.feedUrl
        homeUrl := sqlNullifEmpty f.homeUrl
        name := f.name
        link := sqlNullifEmpty f.link
        lastPublished := f.lastPublished
        lastFetched := f.lastFetched
        image := sqlNullifEmpty f.image
        nextFetchAt := f.nextFetchAt
        publishRatePerHour := f.publishRatePerHour }) }

/-- `ORDER BY published DESC NULLS LAST` on search rows. -/
def pubDescLe (a b : SearchRow) : Prop :=
  (match a.published, b.published with
    | none, none => true
    | none, some _ => false
    | some _, none => true
    | some x, some y => decide (y ≤ x)) = true

instance : DecidableRel pubDescLe := fun _ _ =>
  inferInstanceAs (Decidable (_ = true))

/-- JS `trimmed.split(/\s+/)`: `""` splits to `[""]`; otherwise whitespace-separated
tokens of a trimmed string. -/
def splitWs (s : String) : List String :=
  if s = "" then [""]
  else (s.split (fun c => c.isWhitespace)).filter (fun t => t ≠ "")

/-- `query.trim().split(/\s+/).map(t => t + ":*").join(" & ")` (api/index.ts). -/
def tsQueryOf (q : String) : String :=
  String.intercalate " & " ((splitWs q.trim).map (fun t => t ++ ":*"))

/-- `searchItems(query, limit, offset)` (api/index.ts) over explicit tables. The
Postgres full-text predicate `to_tsvector(...) @@ to_tsquery('english', tsQuery)` is
database-internal, so it is abstracted as the parameter `ftMatch` applied to the row
and the constructed tsquery string; the claim under verification concerns only the
branch where no filter is applied (`if (!query)`, i.e. null or empty string). -/
def searchItems (ftMatch : SearchRow → String → Bool) (query : Option String)
    (limit offset : ℕ) (itemRows : List ItemRow) (feedRows : List FeedRow) :
    List SearchRow :=
  let base := itemRows.map (joinRow feedRows)
  let filtered :=
    match query with
    | none => base
    | some q => if q = "" then base else base.filter (fun row => ftMatch row (tsQueryOf q))
  ((List.insertionSort pubDescLe filtered).drop offset).take limit

/-- **C10.** For a null or empty query string, no full-text filter is applied: the
result is all items left-joined with their feed metadata, ordered by `published`
descending with nulls last, then cut to the given offset and limit. -/
theorem searchItems_empty_query_no_filter (ftMatch : SearchRow → String → Bool)
    (query : Option String) (limit offset : ℕ) (itemRows : List ItemRow)
    (feedRows : List FeedRow) (h : query = none ∨ query = some "") :
    searchItems ftMatch query limit offset itemRows feedRows =
      ((List.insertionSort pubDescLe (itemRows.map (joinRow feedRows))).drop offset).take
        limit := by
  rcases h with h | h <;> subst h <;> rfl

/-- A concrete item row for the C10 witness. -/
def demoItem : ItemRow :=
  { url := "https://sched.example/post"
    title := some "hello"
    description := none
    image := none
    content := none
    published := some 1000
    author := some ""
    feedUrl := "https://sched.example/feed" }

/-- Witness for C10: with a `none` query, one item and one feed row, the search result
is the joined row itself (limit 1, offset 0), with no filter applied. -/
theorem searchItems_empty_query_no_filter_witness :
    searchItems (fun _ _ => false) none 1 0 [demoItem] [cexScheduled] =
      ((List.insertionSort pubDescLe ([demoItem].map (joinRow [cexScheduled]))).drop 0).take
        1 :=
  searchItems_empty_query_no_filter (fun _ _ => false) none 1 0 [demoItem] [cexScheduled]
    (Or.inl rfl)
